import Mathlib

/-!
Verification development for the Super-Robot trading bot.

The definitions below are a shallow embedding of the two source files:
`src/technical.py` (class `TechnicalAnalyzer`) and `src/bot.py` (the
`main` session loop).  Prices and volumes are modelled as rationals;
pandas `NaN` values (a rolling mean before its window is full) are
modelled as `Option.none`, and a Python exception raised by a function
(`df.iloc[-1]` on an empty frame) is modelled as `Except.error`.
-/

namespace SuperRobot

/-- One OHLCV candle, the rows of the DataFrame built by
`get_candles_df` in `bot.py` (IQ Option fields `min`/`max` are already
renamed to `low`/`high` there). -/
structure Candle where
  ts : Int
  open_ : ℚ
  high : ℚ
  low : ℚ
  close : ℚ
  volume : ℚ
  deriving DecidableEq, Repr

/-- The `close` column of the window. -/
def closes (w : List Candle) : List ℚ := w.map Candle.close

/-- The `volume` column of the window. -/
def volumes (w : List Candle) : List ℚ := w.map Candle.volume

/-- Minimum of a nonempty column, as `df[col].min()`: fold of `min`
over the head and tail. -/
def listMin (x : ℚ) (l : List ℚ) : ℚ := l.foldl min x

/-- Maximum of a nonempty column, as `df[col].max()`. -/
def listMax (x : ℚ) (l : List ℚ) : ℚ := l.foldl max x

/-- The last candle of the window `c :: cs`, i.e. `df.iloc[-1]`. -/
def lastCandle (c : Candle) (cs : List Candle) : Candle := cs.getLastD c

/-- Last entry of `xs.rolling(n).mean()` (right-aligned arithmetic
mean, `min_periods = n`): defined iff `1 ≤ n ≤ len`, else pandas
yields `NaN`, modelled as `none`. -/
def rollingMeanLast (n : ℕ) (xs : List ℚ) : Option ℚ :=
  if 1 ≤ n ∧ n ≤ xs.length then some ((xs.drop (xs.length - n)).sum / (n : ℚ)) else none

/-- Breakout classification values returned by
`TechnicalAnalyzer.detect_breakout` (Python also returns `None`,
modelled as `Option.none` around this type). -/
inductive Breakout where
  | breakout_up
  | breakout_down
  deriving DecidableEq, Repr

/-- Trend classification values returned by
`TechnicalAnalyzer.detect_trend`. -/
inductive Trend where
  | up
  | down
  | flat
  deriving DecidableEq, Repr

/-- `TechnicalAnalyzer.detect_trend`: compares the last row's
`MA_fast` and `MA_slow` columns (added by
`calculate_moving_averages`, i.e. rolling means of `close`).  On an
empty frame `df.iloc[-1]` raises, hence `Except.error`.  When either
MA is `NaN`, both Python comparisons `fast > slow` and `fast < slow`
are false, so the `else` branch returns `"flat"`. -/
def detect_trend (maFast maSlow : ℕ) : List Candle → Except String Trend
  | [] => .error "IndexError"
  | c :: cs =>
    match rollingMeanLast maFast (closes (c :: cs)), rollingMeanLast maSlow (closes (c :: cs)) with
    | some fast, some slow =>
      .ok (if slow < fast then .up else if fast < slow then .down else .flat)
    | _, _ => .ok .flat

/-- `support = df['low'].min()` over the ENTIRE window `c :: cs`
(the most recent candle included). -/
def windowSupport (c : Candle) (cs : List Candle) : ℚ :=
  listMin c.low (cs.map Candle.low)

/-- `resistance = df['high'].max()` over the ENTIRE window `c :: cs`
(the most recent candle included). -/
def windowResistance (c : Candle) (cs : List Candle) : ℚ :=
  listMax c.high (cs.map Candle.high)

/-- `TechnicalAnalyzer.detect_breakout`: `support = df['low'].min()`,
`resistance = df['high'].max()`, `last_close = df['close'].iloc[-1]`;
`breakout_up` if `last_close > resistance`, `breakout_down` if
`last_close < support`, else Python `None`. -/
def detect_breakout : List Candle → Except String (Option Breakout)
  | [] => .error "IndexError"
  | c :: cs =>
    if windowResistance c cs < (lastCandle c cs).close then .ok (some .breakout_up)
    else if (lastCandle c cs).close < windowSupport c cs then .ok (some .breakout_down)
    else .ok none

/-- Lines 103-104 of `bot.py`: `avg_volume` is the last entry of
`df['volume'].rolling(volume_period).mean()`, and the relative volume
is `last_candle.volume / avg_volume if avg_volume > 0 else 0`.
A `NaN` mean fails the `> 0` test, giving `0`. -/
def relVolume (period : ℕ) : List Candle → Except String ℚ
  | [] => .error "IndexError"
  | c :: cs =>
    .ok (match rollingMeanLast period (volumes (c :: cs)) with
         | some avg => if 0 < avg then (lastCandle c cs).volume / avg else 0
         | none => 0)

/-- Trade directions. -/
inductive Direction where
  | call
  | put
  deriving DecidableEq, Repr

/-- Lines 116-124 of `bot.py`: the direction is computed only inside
`if breakout and ...` (so Python `None` breakout yields no direction),
then `"call" if breakout == "breakout_up" and trend == "up" else
"put" if breakout == "breakout_down" and trend == "down" else None`. -/
def inferDirection (breakout : Option Breakout) (trend : Trend) : Option Direction :=
  if breakout = some .breakout_up ∧ trend = .up then some .call
  else if breakout = some .breakout_down ∧ trend = .down then some .put
  else none

/-- Line 105 of `bot.py`:
`all([breakout, pattern_name, volume_ratio > 1.0, trend != "flat"])`
(Python truthiness of the first two arguments is `Option.isSome`). -/
def highChanceBasic (breakout : Option Breakout) (patternName : Option String)
    (vr : ℚ) (trend : Trend) : Bool :=
  breakout.isSome && patternName.isSome && decide (1 < vr) && decide (trend ≠ .flat)

/-- A `pd.Timestamp`: a calendar day plus a time of day.  `.date()`
projects out the day. -/
structure Timestamp where
  day : Int
  timeOfDay : ℚ
  deriving DecidableEq, Repr

/-- The `.date()` projection of a `pd.Timestamp`. -/
def Timestamp.date (t : Timestamp) : Int := t.day

/-- The session-lifetime mutable state of `main` in `bot.py`: the
locals `daily_wins` and `last_trade_date` (initialised `0` / `None`). -/
structure SessionState where
  daily_wins : ℕ
  last_trade_date : Option Timestamp
  deriving DecidableEq, Repr

/-- The configuration keys of `config.yaml` consumed by the decision
logic of the loop. -/
structure Config where
  min_payout : ℚ
  max_payout : ℚ
  trend_ma_fast : ℕ
  trend_ma_slow : ℕ
  volume_period : ℕ
  stop_win_victories : ℕ
  deriving DecidableEq, Repr

/-- Per-instrument oracle for one cycle: what the external
collaborators (broker, risk manager, ML model, pandas-ta) would
answer for this asset.  `fetch` is the result of `get_candles_df`
(`Except.error` = the call raised), `execResult` the combined result
of `IQ.buy`/`IQ.check_win` (`Except.error` = either call raised,
`.ok win` = the trade settled with outcome `win`). -/
structure AssetInput where
  asset : String
  payout : ℚ
  fetch : Except String (List Candle)
  patterns : List (String × Int)
  canTrade : Bool
  predictHigh : Bool
  execResult : Except String Bool
  deriving Repr

/-- The external inputs of one iteration of the `while True` loop:
the news-gate answer, `pd.Timestamp.now()`, and the per-asset
oracles in `config['assets']` order. -/
structure CycleInput where
  news : Bool
  now : Timestamp
  assets : List AssetInput
  deriving Repr

/-- Observable action taken for one asset during the scan; every
processed asset produces exactly one event. -/
inductive Event where
  | skipPayout (asset : String)
  | fetchFail (asset : String)
  | noSignal (asset : String)
  | execFail (asset : String)
  | traded (asset : String) (dir : Direction) (win : Bool)
  deriving DecidableEq, Repr

/-- The asset an event speaks about. -/
def Event.assetOf : Event → String
  | .skipPayout a => a
  | .fetchFail a => a
  | .noSignal a => a
  | .execFail a => a
  | .traded a _ _ => a

/-- Whether the event is an executed trade. -/
def Event.isTrade : Event → Bool
  | .traded _ _ _ => true
  | _ => false

/-- Condition of line 69 of `bot.py`:
`last_trade_date is None or last_trade_date.date() < now.date()`. -/
def needsReset (last : Option Timestamp) (now : Timestamp) : Bool :=
  match last with
  | none => true
  | some t => decide (t.date < now.date)

/-- Lines 68-71 of `bot.py`: reset `daily_wins` to 0 when the day
rolled over (or no cycle ran yet), and unconditionally set
`last_trade_date = now`. -/
def rollover (s : SessionState) (now : Timestamp) : SessionState :=
  { daily_wins := if needsReset s.last_trade_date now then 0 else s.daily_wins,
    last_trade_date := some now }

/-- Lines 82-141 of `bot.py`, the body of `for asset in
config['assets']`: payout band filter, guarded candle fetch, signal
aggregation, direction inference, predictor gate, guarded execution.
Returns the event observed for this asset and whether `daily_wins`
is incremented (`result` truthy).  An uncaught exception inside the
body (e.g. `df.iloc[-1]` on an empty frame) is `Except.error` and
aborts the whole loop, faithfully to the single `try` blocks around
only the fetch and the order. -/
def processAsset (cfg : Config) (a : AssetInput) : Except String (Event × Bool) :=
  if a.payout < cfg.min_payout ∨ cfg.max_payout < a.payout then
    .ok (.skipPayout a.asset, false)
  else
    match a.fetch with
    | .error _ => .ok (.fetchFail a.asset, false)
    | .ok df =>
      match detect_breakout df with
      | .error e => .error e
      | .ok breakout =>
        match detect_trend cfg.trend_ma_fast cfg.trend_ma_slow df with
        | .error e => .error e
        | .ok trend =>
          match relVolume cfg.volume_period df with
          | .error e => .error e
          | .ok _vr =>
            if breakout.isSome && a.canTrade then
              match inferDirection breakout trend with
              | none => .ok (.noSignal a.asset, false)
              | some dir =>
                if a.predictHigh then
                  match a.execResult with
                  | .ok win => .ok (.traded a.asset dir win, win)
                  | .error _ => .ok (.execFail a.asset, false)
                else .ok (.noSignal a.asset, false)
            else .ok (.noSignal a.asset, false)

/-- The full `for asset in config['assets']` loop: processes every
asset in order, collecting the events and the number of
`daily_wins += 1` increments; an uncaught per-asset exception
escapes the loop. -/
def scanAssets (cfg : Config) : List AssetInput → Except String (List Event × ℕ)
  | [] => .ok ([], 0)
  | a :: rest =>
    match processAsset cfg a with
    | .error e => .error e
    | .ok (ev, win) =>
      match scanAssets cfg rest with
      | .error e => .error e
      | .ok (evs, n) => .ok (ev :: evs, (if win then 1 else 0) + n)

/-- Which branch of the cycle ran to completion. -/
inductive CycleOutcome where
  | newsPause
  | dailyStop
  | scanned
  deriving DecidableEq, Repr

/-- One iteration of the `while True` loop of `main` (lines 57-144):
news pause (`continue` before any state change), daily rollover,
daily stop-win pause (`continue` before `IQ.get_all_profit()` and
before any instrument is visited), else the instrument scan.  Returns
the new session state, which branch ran, and the per-asset events
(empty in both pause branches: no payout lookup, no fetch, no
trade). -/
def runCycle (cfg : Config) (inp : CycleInput) (s : SessionState) :
    Except String (SessionState × CycleOutcome × List Event) :=
  if inp.news then .ok (s, .newsPause, [])
  else
    let s1 := rollover s inp.now
    if cfg.stop_win_victories ≤ s1.daily_wins then .ok (s1, .dailyStop, [])
    else
      match scanAssets cfg inp.assets with
      | .error e => .error e
      | .ok (evs, n) => .ok ({ s1 with daily_wins := s1.daily_wins + n }, .scanned, evs)

/-- Equality on `Except` results is decidable componentwise (used to
evaluate the embedded functions on concrete windows). -/
instance {e a : Type _} [DecidableEq e] [DecidableEq a] : DecidableEq (Except e a) := fun x y =>
  match x, y with
  | .error u, .error v =>
    if h : u = v then isTrue (congrArg Except.error h)
    else isFalse (fun hc => h (by cases hc; rfl))
  | .ok u, .ok v =>
    if h : u = v then isTrue (congrArg Except.ok h)
    else isFalse (fun hc => h (by cases hc; rfl))
  | .error _, .ok _ => isFalse (fun hc => Except.noConfusion hc)
  | .ok _, .error _ => isFalse (fun hc => Except.noConfusion hc)

/-- A concrete window of 60 valid candles whose closes rise strictly
from 100 to 160 (each candle degenerate: open = high = low = close). -/
def c1window : List Candle :=
  [
    ⟨0, 100, 100, 100, 100, 1⟩,
    ⟨1, 101, 101, 101, 101, 1⟩,
    ⟨2, 102, 102, 102, 102, 1⟩,
    ⟨3, 103, 103, 103, 103, 1⟩,
    ⟨4, 104, 104, 104, 104, 1⟩,
    ⟨5, 105, 105, 105, 105, 1⟩,
    ⟨6, 106, 106, 106, 106, 1⟩,
    ⟨7, 107, 107, 107, 107, 1⟩,
    ⟨8, 108, 108, 108, 108, 1⟩,
    ⟨9, 109, 109, 109, 109, 1⟩,
    ⟨10, 110, 110, 110, 110, 1⟩,
    ⟨11, 111, 111, 111, 111, 1⟩,
    ⟨12, 112, 112, 112, 112, 1⟩,
    ⟨13, 113, 113, 113, 113, 1⟩,
    ⟨14, 114, 114, 114, 114, 1⟩,
    ⟨15, 115, 115, 115, 115, 1⟩,
    ⟨16, 116, 116, 116, 116, 1⟩,
    ⟨17, 117, 117, 117, 117, 1⟩,
    ⟨18, 118, 118, 118, 118, 1⟩,
    ⟨19, 119, 119, 119, 119, 1⟩,
    ⟨20, 120, 120, 120, 120, 1⟩,
    ⟨21, 121, 121, 121, 121, 1⟩,
    ⟨22, 122, 122, 122, 122, 1⟩,
    ⟨23, 123, 123, 123, 123, 1⟩,
    ⟨24, 124, 124, 124, 124, 1⟩,
    ⟨25, 125, 125, 125, 125, 1⟩,
    ⟨26, 126, 126, 126, 126, 1⟩,
    ⟨27, 127, 127, 127, 127, 1⟩,
    ⟨28, 128, 128, 128, 128, 1⟩,
    ⟨29, 129, 129, 129, 129, 1⟩,
    ⟨30, 130, 130, 130, 130, 1⟩,
    ⟨31, 131, 131, 131, 131, 1⟩,
    ⟨32, 132, 132, 132, 132, 1⟩,
    ⟨33, 133, 133, 133, 133, 1⟩,
    ⟨34, 134, 134, 134, 134, 1⟩,
    ⟨35, 135, 135, 135, 135, 1⟩,
    ⟨36, 136, 136, 136, 136, 1⟩,
    ⟨37, 137, 137, 137, 137, 1⟩,
    ⟨38, 138, 138, 138, 138, 1⟩,
    ⟨39, 139, 139, 139, 139, 1⟩,
    ⟨40, 140, 140, 140, 140, 1⟩,
    ⟨41, 141, 141, 141, 141, 1⟩,
    ⟨42, 142, 142, 142, 142, 1⟩,
    ⟨43, 143, 143, 143, 143, 1⟩,
    ⟨44, 144, 144, 144, 144, 1⟩,
    ⟨45, 145, 145, 145, 145, 1⟩,
    ⟨46, 146, 146, 146, 146, 1⟩,
    ⟨47, 147, 147, 147, 147, 1⟩,
    ⟨48, 148, 148, 148, 148, 1⟩,
    ⟨49, 149, 149, 149, 149, 1⟩,
    ⟨50, 150, 150, 150, 150, 1⟩,
    ⟨51, 151, 151, 151, 151, 1⟩,
    ⟨52, 152, 152, 152, 152, 1⟩,
    ⟨53, 153, 153, 153, 153, 1⟩,
    ⟨54, 154, 154, 154, 154, 1⟩,
    ⟨55, 155, 155, 155, 155, 1⟩,
    ⟨56, 156, 156, 156, 156, 1⟩,
    ⟨57, 157, 157, 157, 157, 1⟩,
    ⟨58, 158, 158, 158, 158, 1⟩,
    ⟨59, 160, 160, 160, 160, 1⟩
  ]

/-- Claim C1 as stated: every 60-candle window whose closes rise
monotonically from 100 to 160 yields, with `maFast = 5` and
`maSlow = 20`, trend `up`, breakout `breakout_up` and direction
`call`. -/
def C1Claim : Prop :=
  ∀ w : List Candle, w.length = 60 →
    (closes w).Pairwise (· < ·) →
    (closes w).head? = some 100 →
    (closes w).getLast? = some 160 →
    (∀ x ∈ w, x.low ≤ x.close ∧ x.close ≤ x.high) →
    detect_trend 5 20 w = .ok .up ∧ detect_breakout w = .ok (some .breakout_up) ∧
    (∀ b t, detect_breakout w = .ok b → detect_trend 5 20 w = .ok t →
      inferDirection b t = some .call)

/-- A single valid candle used in witnesses. -/
def wA : Candle := ⟨0, 1, 2, 0, 1, 1⟩

/-- First candle of the breakout witness window. -/
def wB1 : Candle := ⟨0, 1, 1, 1, 1, 1⟩

/-- Second candle of the breakout witness window; its close lies
above its own high, which is what `detect_breakout` needs to fire. -/
def wB2 : Candle := ⟨1, 1, 1, 1, 2, 1⟩

/-- Two-candle window on which `detect_breakout` yields `breakout_up`
and the 1/2 moving averages yield trend `up`. -/
def wBreakWindow : List Candle := [wB1, wB2]

/-- Witness configuration: payout band [0, 1], fast/slow period 1,
volume period 1, daily cap 2. -/
def cfgW : Config := ⟨0, 1, 1, 1, 1, 2⟩

/-- Witness configuration with fast period 1 and slow period 2. -/
def cfgW7 : Config := ⟨0, 1, 1, 2, 1, 2⟩

/-- Witness asset oracle whose fetch succeeds with the valid window. -/
def aW : AssetInput := ⟨"EURUSD", 1, .ok [wA], [], true, true, .ok true⟩

/-- Witness asset oracle whose candle fetch raises. -/
def aF : AssetInput := ⟨"A", 1, .error "boom", [], true, true, .ok true⟩

/-- Witness asset oracle that reaches execution and whose order
placement raises. -/
def aE : AssetInput := ⟨"B", 1, .ok wBreakWindow, [], true, true, .error "net"⟩

/-- Witness timestamps on consecutive days. -/
def ts1 : Timestamp := ⟨1, 0⟩

/-- Witness timestamp one day after `ts1`. -/
def ts2 : Timestamp := ⟨2, 0⟩

/-- Witness session state: two wins recorded on day 1. -/
def st1 : SessionState := ⟨2, some ts1⟩

/-- Witness cycle input: no news, day 2, no configured assets. -/
def inpW5 : CycleInput := ⟨false, ts2, []⟩

/-- Witness cycle input whose news gate fires. -/
def inpNews : CycleInput := ⟨true, ts2, [aW]⟩

/-- Witness cycle input: no news, still day 1 (same day as `st1`). -/
def inpW6 : CycleInput := ⟨false, ts1, [aW]⟩


/-! ## Basic lemmas about the column folds -/

theorem listMin_le_init (x : ℚ) (l : List ℚ) : listMin x l ≤ x := by
  induction l generalizing x with
  | nil => simp [listMin]
  | cons b t ih =>
    calc listMin x (b :: t) = listMin (min x b) t := rfl
    _ ≤ min x b := ih _
    _ ≤ x := min_le_left _ _

theorem listMin_le_of_mem {a : ℚ} (x : ℚ) {l : List ℚ} (h : a ∈ l) : listMin x l ≤ a := by
  induction l generalizing x with
  | nil => cases h
  | cons b t ih =>
    rcases List.mem_cons.mp h with rfl | hm
    · calc listMin x (a :: t) = listMin (min x a) t := rfl
      _ ≤ min x a := listMin_le_init _ _
      _ ≤ a := min_le_right _ _
    · exact ih _ hm

theorem le_listMax_init (x : ℚ) (l : List ℚ) : x ≤ listMax x l := by
  induction l generalizing x with
  | nil => simp [listMax]
  | cons b t ih =>
    calc x ≤ max x b := le_max_left _ _
    _ ≤ listMax (max x b) t := ih _
    _ = listMax x (b :: t) := rfl

theorem le_listMax_of_mem {a : ℚ} (x : ℚ) {l : List ℚ} (h : a ∈ l) : a ≤ listMax x l := by
  induction l generalizing x with
  | nil => cases h
  | cons b t ih =>
    rcases List.mem_cons.mp h with rfl | hm
    · calc a ≤ max x a := le_max_right _ _
      _ ≤ listMax (max x a) t := le_listMax_init _ _
      _ = listMax x (a :: t) := rfl
    · exact ih _ hm

theorem windowSupport_le_low (c : Candle) (cs : List Candle) {x : Candle}
    (hx : x ∈ c :: cs) : windowSupport c cs ≤ x.low := by
  rcases List.mem_cons.mp hx with rfl | hm
  · exact listMin_le_init _ _
  · exact listMin_le_of_mem _ (List.mem_map_of_mem Candle.low hm)

theorem high_le_windowResistance (c : Candle) (cs : List Candle) {x : Candle}
    (hx : x ∈ c :: cs) : x.high ≤ windowResistance c cs := by
  rcases List.mem_cons.mp hx with rfl | hm
  · exact le_listMax_init _ _
  · exact le_listMax_of_mem _ (List.mem_map_of_mem Candle.high hm)

theorem windowSupport_le_windowResistance (c : Candle) (cs : List Candle)
    (hval : ∀ x ∈ c :: cs, x.low ≤ x.high) :
    windowSupport c cs ≤ windowResistance c cs :=
  le_trans (windowSupport_le_low c cs (List.mem_cons_self c cs))
    (le_trans (hval c (List.mem_cons_self c cs))
      (high_le_windowResistance c cs (List.mem_cons_self c cs)))

/-! ## Lemmas about the aggregation functions on nonempty windows -/

theorem detect_breakout_of_valid (c : Candle) (cs : List Candle)
    (hval : ∀ x ∈ c :: cs, x.low ≤ x.close ∧ x.close ≤ x.high) :
    detect_breakout (c :: cs) = .ok none := by
  have hmem : lastCandle c cs ∈ c :: cs := List.getLastD_mem_cons cs c
  have h1 : ¬ windowResistance c cs < (lastCandle c cs).close :=
    not_lt_of_le (le_trans (hval _ hmem).2 (high_le_windowResistance c cs hmem))
  have h2 : ¬ (lastCandle c cs).close < windowSupport c cs :=
    not_lt_of_le (le_trans (windowSupport_le_low c cs hmem) (hval _ hmem).1)
  simp [detect_breakout, h1, h2]

theorem detect_trend_ok (maFast maSlow : ℕ) (c : Candle) (cs : List Candle) :
    ∃ t, detect_trend maFast maSlow (c :: cs) = .ok t := by
  cases hf : rollingMeanLast maFast (closes (c :: cs)) with
  | none =>
    cases hs : rollingMeanLast maSlow (closes (c :: cs)) with
    | none => exact ⟨.flat, by simp [detect_trend, hf, hs]⟩
    | some s => exact ⟨.flat, by simp [detect_trend, hf, hs]⟩
  | some f =>
    cases hs : rollingMeanLast maSlow (closes (c :: cs)) with
    | none => exact ⟨.flat, by simp [detect_trend, hf, hs]⟩
    | some s =>
      exact ⟨if s < f then .up else if f < s then .down else .flat,
        by simp [detect_trend, hf, hs]⟩

theorem relVolume_ok (p : ℕ) (c : Candle) (cs : List Candle) :
    ∃ v, relVolume p (c :: cs) = .ok v := ⟨_, rfl⟩

/-! ## Claim theorems -/

/-- C3: for every window of candles each satisfying the OHLC
data-model invariant `low ≤ high`, `detect_breakout` classifies with
support = min of `low` and resistance = max of `high` over the
entire window, the most recent candle included (the last two
conjuncts): `breakout_up` iff the last close strictly exceeds the
resistance, `breakout_down` iff it is strictly below the support,
and `none` whenever it lies strictly between support and
resistance. -/
theorem breakout_classification (c : Candle) (cs : List Candle)
    (hval : ∀ x ∈ c :: cs, x.low ≤ x.high) :
    (detect_breakout (c :: cs) = .ok (some .breakout_up) ↔
      windowResistance c cs < (lastCandle c cs).close)
  ∧ (detect_breakout (c :: cs) = .ok (some .breakout_down) ↔
      (lastCandle c cs).close < windowSupport c cs)
  ∧ (windowSupport c cs < (lastCandle c cs).close →
      (lastCandle c cs).close < windowResistance c cs →
      detect_breakout (c :: cs) = .ok none)
  ∧ windowSupport c cs ≤ (lastCandle c cs).low
  ∧ (lastCandle c cs).high ≤ windowResistance c cs := by
  have hsr := windowSupport_le_windowResistance c cs hval
  have hmem : lastCandle c cs ∈ c :: cs := List.getLastD_mem_cons cs c
  refine ⟨?_, ?_, ?_, windowSupport_le_low c cs hmem, high_le_windowResistance c cs hmem⟩
  · by_cases h1 : windowResistance c cs < (lastCandle c cs).close
    · simp [detect_breakout, h1]
    · by_cases h2 : (lastCandle c cs).close < windowSupport c cs
      · simp [detect_breakout, h1, h2]
      · simp [detect_breakout, h1, h2]
  · by_cases h1 : windowResistance c cs < (lastCandle c cs).close
    · have h2 : ¬ (lastCandle c cs).close < windowSupport c cs :=
        not_lt.mpr (le_trans hsr (le_of_lt h1))
      simp [detect_breakout, h1, h2]
    · by_cases h2 : (lastCandle c cs).close < windowSupport c cs
      · simp [detect_breakout, h1, h2]
      · simp [detect_breakout, h1, h2]
  · intro hs hr
    simp [detect_breakout, lt_asymm hr, lt_asymm hs]

/-- Witness for C3 at the singleton window `[wA]`. -/
theorem breakout_classification_witness :
    (∀ x ∈ [wA], x.low ≤ x.high)
  ∧ ((detect_breakout [wA] = .ok (some .breakout_up) ↔
        windowResistance wA [] < (lastCandle wA []).close)
    ∧ (detect_breakout [wA] = .ok (some .breakout_down) ↔
        (lastCandle wA []).close < windowSupport wA [])
    ∧ (windowSupport wA [] < (lastCandle wA []).close →
        (lastCandle wA []).close < windowResistance wA [] →
        detect_breakout [wA] = .ok none)
    ∧ windowSupport wA [] ≤ (lastCandle wA []).low
    ∧ (lastCandle wA []).high ≤ windowResistance wA []) :=
  ⟨by decide, breakout_classification wA [] (by decide)⟩

/-- C2: on every window whose candles all satisfy
`low ≤ close ≤ high`, `detect_breakout` returns Python `None` (the
window-wide extremes include the last candle itself), the inferred
direction is `None`, and the per-asset loop body never reaches the
order: it ends in a payout skip or in a no-signal pass, never in a
trade. -/
theorem valid_window_never_breakout (c : Candle) (cs : List Candle)
    (hval : ∀ x ∈ c :: cs, x.low ≤ x.close ∧ x.close ≤ x.high) :
    detect_breakout (c :: cs) = .ok none
  ∧ (∀ t, inferDirection none t = none)
  ∧ (∀ cfg a, a.fetch = .ok (c :: cs) →
      processAsset cfg a = .ok (.skipPayout a.asset, false) ∨
      processAsset cfg a = .ok (.noSignal a.asset, false)) := by
  have hb := detect_breakout_of_valid c cs hval
  refine ⟨hb, fun t => by simp [inferDirection], ?_⟩
  intro cfg a hf
  by_cases hp : a.payout < cfg.min_payout ∨ cfg.max_payout < a.payout
  · left
    simp [processAsset, hp]
  · right
    obtain ⟨t, ht⟩ := detect_trend_ok cfg.trend_ma_fast cfg.trend_ma_slow c cs
    obtain ⟨v, hv⟩ := relVolume_ok cfg.volume_period c cs
    simp [processAsset, hp, hf, hb, ht, hv]

/-- Witness for C2 at the singleton window `[wA]` and the oracle
`aW` whose fetch returns it. -/
theorem valid_window_never_breakout_witness :
    (∀ x ∈ [wA], x.low ≤ x.close ∧ x.close ≤ x.high)
  ∧ detect_breakout [wA] = .ok none
  ∧ (processAsset cfgW aW = .ok (.skipPayout aW.asset, false) ∨
      processAsset cfgW aW = .ok (.noSignal aW.asset, false)) :=
  ⟨by decide, (valid_window_never_breakout wA [] (by decide)).1,
    (valid_window_never_breakout wA [] (by decide)).2.2 cfgW aW rfl⟩

/-- C4: the inferred direction is `call` iff breakout is
`breakout_up` and trend is `up`, `put` iff breakout is
`breakout_down` and trend is `down`, `None` whenever breakout and
trend disagree (even with a non-`None` breakout), and `None` when
breakout is `None`. -/
theorem direction_inference (w : List Candle) (maFast maSlow : ℕ)
    (b : Option Breakout) (t : Trend)
    (hb : detect_breakout w = .ok b) (ht : detect_trend maFast maSlow w = .ok t) :
    (inferDirection b t = some .call ↔ b = some .breakout_up ∧ t = .up)
  ∧ (inferDirection b t = some .put ↔ b = some .breakout_down ∧ t = .down)
  ∧ ((b = some .breakout_up ∧ t ≠ .up) ∨ (b = some .breakout_down ∧ t ≠ .down) →
      inferDirection b t = none)
  ∧ (b = none → inferDirection b t = none) := by
  clear hb ht
  cases b with
  | none => cases t <;> decide
  | some bb => cases bb <;> cases t <;> decide

/-- Witness for C4 at the singleton window `[wA]` with both moving
average periods 1: breakout `None`, trend `flat`, direction `None`. -/
theorem direction_inference_witness :
    (detect_breakout [wA] = .ok none
      ∧ detect_trend 1 1 [wA] = .ok .flat
      ∧ inferDirection none .flat = none)
  ∧ ((inferDirection none Trend.flat = some .call ↔
        (none : Option Breakout) = some .breakout_up ∧ Trend.flat = .up)
    ∧ (inferDirection none Trend.flat = some .put ↔
        (none : Option Breakout) = some .breakout_down ∧ Trend.flat = .down)) := by
  have ht : detect_trend 1 1 [wA] = .ok .flat := by
    simp [detect_trend, rollingMeanLast, closes, wA]
  have key := direction_inference [wA] 1 1 none .flat (by decide) ht
  exact ⟨⟨by decide, ht, by decide⟩, key.1, key.2.1⟩

/-- Sum of a constant list. -/
theorem sum_of_all_eq (l : List ℚ) (v : ℚ) (h : ∀ x ∈ l, x = v) :
    l.sum = (l.length : ℚ) * v := by
  induction l with
  | nil => simp
  | cons b t ih =>
    have hb : b = v := h b (List.mem_cons_self b t)
    have ht := ih (fun x hx => h x (List.mem_cons_of_mem _ hx))
    rw [List.sum_cons, ht, hb, List.length_cons]
    push_cast
    ring

/-- On a constant window every available rolling mean equals the
constant. -/
theorem rollingMeanLast_const (xs : List ℚ) (v : ℚ) (n : ℕ)
    (hv : ∀ x ∈ xs, x = v) (h1 : 1 ≤ n) (h2 : n ≤ xs.length) :
    rollingMeanLast n xs = some v := by
  have hmem : ∀ x ∈ xs.drop (xs.length - n), x = v :=
    fun x hx => hv x (List.mem_of_mem_drop hx)
  have hdlen : (xs.drop (xs.length - n)).length = n := by
    rw [List.length_drop]
    omega
  have hsum : (xs.drop (xs.length - n)).sum = (n : ℚ) * v := by
    rw [sum_of_all_eq _ v hmem, hdlen]
  rw [rollingMeanLast, if_pos ⟨h1, h2⟩, hsum]
  congr 1
  exact mul_div_cancel_left₀ v (Nat.cast_ne_zero.mpr (by omega))

/-- C9: once both moving averages are available, the trend is `up`
when the last fast MA exceeds the slow one, `down` in the opposite
strict case and `flat` at exact equality (first conjunct); on a
window with constant close it is `flat` (second conjunct); and when
the window is shorter than the slow period the classification does
not raise and returns `flat` (third conjunct). -/
theorem trend_classification (maFast maSlow : ℕ) (c : Candle) (cs : List Candle)
    (hfast : 1 ≤ maFast) (hslow : 1 ≤ maSlow) :
    (∀ f s, rollingMeanLast maFast (closes (c :: cs)) = some f →
        rollingMeanLast maSlow (closes (c :: cs)) = some s →
        detect_trend maFast maSlow (c :: cs) =
          .ok (if s < f then .up else if f < s then .down else .flat))
  ∧ (∀ v, (∀ x ∈ closes (c :: cs), x = v) →
        maFast ≤ (c :: cs).length → maSlow ≤ (c :: cs).length →
        detect_trend maFast maSlow (c :: cs) = .ok .flat)
  ∧ ((c :: cs).length < maSlow → detect_trend maFast maSlow (c :: cs) = .ok .flat)
  ∧ ((c :: cs).length < maFast → detect_trend maFast maSlow (c :: cs) = .ok .flat) := by
  have hlen : (closes (c :: cs)).length = (c :: cs).length := by simp [closes]
  refine ⟨?_, ?_, ?_, ?_⟩
  · intro f s hf hs
    simp [detect_trend, hf, hs]
  · intro v hv hfl hsl
    have hf := rollingMeanLast_const (closes (c :: cs)) v maFast hv hfast (by omega)
    have hs := rollingMeanLast_const (closes (c :: cs)) v maSlow hv hslow (by omega)
    simp [detect_trend, hf, hs]
  · intro hlt
    have hs : rollingMeanLast maSlow (closes (c :: cs)) = none := by
      rw [rollingMeanLast, if_neg]
      intro hcon
      omega
    cases hf : rollingMeanLast maFast (closes (c :: cs)) with
    | none => simp [detect_trend, hf, hs]
    | some f => simp [detect_trend, hf, hs]
  · intro hlt
    have hf : rollingMeanLast maFast (closes (c :: cs)) = none := by
      rw [rollingMeanLast, if_neg]
      intro hcon
      omega
    cases hs : rollingMeanLast maSlow (closes (c :: cs)) with
    | none => simp [detect_trend, hf, hs]
    | some s => simp [detect_trend, hf, hs]

/-- Witness for C9 at the two-candle constant window `[wA, wA]` with
fast period 1 and slow period 2. -/
theorem trend_classification_witness :
    ((1:ℕ) ≤ 1 ∧ (1:ℕ) ≤ 2 ∧ (∀ x ∈ closes [wA, wA], x = 1))
  ∧ detect_trend 1 2 [wA, wA] = .ok .flat
  ∧ detect_trend 1 2 [wA] = .ok .flat :=
  ⟨⟨by decide, by decide, by decide⟩,
    (trend_classification 1 2 wA [wA] (by decide) (by decide)).2.1 1 (by decide)
      (by decide) (by decide),
    (trend_classification 1 2 wA [] (by decide) (by decide)).2.2.1 (by decide)⟩

/-- C8: on every window of candles with non-negative volume the
volume-ratio feature is defined (no exception, no NaN), is
non-negative, and is exactly 0 when the rolling volume mean is
unavailable (window shorter than the period) or equal to 0. -/
theorem volume_feature_safe (p : ℕ) (c : Candle) (cs : List Candle)
    (hvol : ∀ x ∈ c :: cs, 0 ≤ x.volume) :
    ∃ r, relVolume p (c :: cs) = .ok r
      ∧ 0 ≤ r
      ∧ (rollingMeanLast p (volumes (c :: cs)) = none → r = 0)
      ∧ (rollingMeanLast p (volumes (c :: cs)) = some 0 → r = 0) := by
  cases havg : rollingMeanLast p (volumes (c :: cs)) with
  | none =>
    refine ⟨0, ?_, le_refl 0, fun _ => rfl, fun h => by simp [havg] at h⟩
    simp [relVolume, havg]
  | some avg =>
    by_cases hpos : 0 < avg
    · have hlv : 0 ≤ (lastCandle c cs).volume := hvol _ (List.getLastD_mem_cons cs c)
      refine ⟨(lastCandle c cs).volume / avg, ?_,
        div_nonneg hlv (le_of_lt hpos), ?_, ?_⟩
      · simp [relVolume, havg, hpos]
      · intro h
        cases h
      · intro h
        have h0 : avg = 0 := Option.some.inj h
        rw [h0] at hpos
        exact absurd hpos (lt_irrefl 0)
    · refine ⟨0, ?_, le_refl 0, fun _ => rfl, fun _ => rfl⟩
      simp [relVolume, havg, hpos]

/-- Witness for C8 at the singleton window `[wA]` with period 1. -/
theorem volume_feature_safe_witness :
    (∀ x ∈ [wA], 0 ≤ x.volume)
  ∧ (∃ r, relVolume 1 [wA] = .ok r ∧ 0 ≤ r)
  ∧ (∃ r, relVolume 2 [wA] = .ok r ∧ 0 ≤ r
      ∧ (rollingMeanLast 2 (volumes [wA]) = none → r = 0)) := by
  obtain ⟨r1, ha1, ha2, _, _⟩ := volume_feature_safe 1 wA [] (by decide)
  obtain ⟨r2, hb1, hb2, hb3, _⟩ := volume_feature_safe 2 wA [] (by decide)
  exact ⟨by decide, ⟨r1, ha1, ha2⟩, ⟨r2, hb1, hb2, hb3⟩⟩

/-- C10: when the news gate fires, the cycle returns with the
session state it started from (`daily_wins` and `last_trade_date`
untouched), the `newsPause` outcome and an empty event trace: no
instrument is scanned. -/
theorem news_pause_frame (cfg : Config) (inp : CycleInput) (s : SessionState)
    (hnews : inp.news = true) :
    runCycle cfg inp s = .ok (s, .newsPause, []) := by
  simp [runCycle, hnews]

/-- Witness for C10 at `inpNews`. -/
theorem news_pause_frame_witness :
    inpNews.news = true ∧ runCycle cfgW inpNews st1 = .ok (st1, .newsPause, []) :=
  ⟨rfl, news_pause_frame cfgW inpNews st1 rfl⟩

/-- C6: when, after the rollover, the daily win count has reached
the configured cap, the cycle ends in the daily-stop pause with an
empty event trace: the state is exactly the rolled-over state and no
instrument is scanned (the scan branch, the only one that consults
the payout mapping or fetches candles, is not taken). -/
theorem daily_stop_pause (cfg : Config) (inp : CycleInput) (s : SessionState)
    (hnews : inp.news = false)
    (hcap : cfg.stop_win_victories ≤ (rollover s inp.now).daily_wins) :
    runCycle cfg inp s = .ok (rollover s inp.now, .dailyStop, []) := by
  simp [runCycle, hnews, hcap]

/-- Witness for C6: two same-day wins against a cap of two. -/
theorem daily_stop_pause_witness :
    inpW6.news = false
  ∧ cfgW.stop_win_victories ≤ (rollover st1 ts1).daily_wins
  ∧ runCycle cfgW inpW6 st1 = .ok (rollover st1 ts1, .dailyStop, []) :=
  ⟨rfl, by decide, daily_stop_pause cfgW inpW6 st1 rfl (by decide)⟩

/-- Any successful cycle that passed the news gate carries the
rolled-over state through: the final `last_trade_date` is the cycle
timestamp and the final win count is at least the rolled-over one. -/
theorem runCycle_state_from_rollover (cfg : Config) (inp : CycleInput) (s : SessionState)
    (hnews : inp.news = false) (s' : SessionState) (out : CycleOutcome) (evs : List Event)
    (h : runCycle cfg inp s = .ok (s', out, evs)) :
    s'.last_trade_date = some inp.now
    ∧ (rollover s inp.now).daily_wins ≤ s'.daily_wins := by
  rw [runCycle] at h
  rw [hnews] at h
  simp only [Bool.false_eq_true, if_false] at h
  by_cases hcap : cfg.stop_win_victories ≤ (rollover s inp.now).daily_wins
  · rw [if_pos hcap] at h
    have h3 := Except.ok.inj h
    have hs : rollover s inp.now = s' := congrArg Prod.fst h3
    rw [← hs]
    exact ⟨rfl, le_refl _⟩
  · rw [if_neg hcap] at h
    cases hscan : scanAssets cfg inp.assets with
    | error e =>
      rw [hscan] at h
      cases h
    | ok p =>
      obtain ⟨evs2, n⟩ := p
      rw [hscan] at h
      have h3 := Except.ok.inj h
      injection h3 with h4 h5
      rw [← h4]
      exact ⟨rfl, Nat.le_add_right _ _⟩

/-- C5: on a cycle that passes the news gate, `daily_wins` is reset
to 0 iff `last_trade_date` is unset or strictly before today
(conjuncts 1 and 2), `last_trade_date` is then unconditionally set
to the current time, both in the rollover itself and in whatever
state the cycle ends with (conjuncts 3 and 4), and within a calendar
day the win count never decreases across the cycle (conjuncts 4 and
5). -/
theorem daily_rollover_spec (cfg : Config) (inp : CycleInput) (s : SessionState)
    (hnews : inp.news = false) :
    ((s.last_trade_date = none ∨ (∃ t, s.last_trade_date = some t ∧ t.date < inp.now.date)) →
        (rollover s inp.now).daily_wins = 0)
  ∧ (∀ t, s.last_trade_date = some t → ¬ t.date < inp.now.date →
        (rollover s inp.now).daily_wins = s.daily_wins)
  ∧ (rollover s inp.now).last_trade_date = some inp.now
  ∧ (∀ s' out evs, runCycle cfg inp s = .ok (s', out, evs) →
        s'.last_trade_date = some inp.now
        ∧ (rollover s inp.now).daily_wins ≤ s'.daily_wins)
  ∧ (∀ t, s.last_trade_date = some t → t.date = inp.now.date →
        ∀ s' out evs, runCycle cfg inp s = .ok (s', out, evs) →
        s.daily_wins ≤ s'.daily_wins) := by
  refine ⟨?_, ?_, rfl, ?_, ?_⟩
  · intro h
    have hr : needsReset s.last_trade_date inp.now = true := by
      rcases h with h | ⟨t, ht, hlt⟩
      · simp [needsReset, h]
      · simp [needsReset, ht, hlt]
    simp [rollover, hr]
  · intro t ht hnlt
    have hr : needsReset s.last_trade_date inp.now = false := by
      simp [needsReset, ht, hnlt]
    simp [rollover, hr]
  · intro s' out evs h
    exact runCycle_state_from_rollover cfg inp s hnews s' out evs h
  · intro t ht heq s' out evs h
    have hnlt : ¬ t.date < inp.now.date := by
      rw [heq]
      exact lt_irrefl _
    have hr : needsReset s.last_trade_date inp.now = false := by
      simp [needsReset, ht, hnlt]
    have hkeep : (rollover s inp.now).daily_wins = s.daily_wins := by
      simp [rollover, hr]
    have hmono := (runCycle_state_from_rollover cfg inp s hnews s' out evs h).2
    rw [hkeep] at hmono
    exact hmono

/-- Witness for C5: two wins on day 1, cycle on day 2 with no
assets: the counter is reset, the date advanced, and the cycle
result dominates the rolled-over count. -/
theorem daily_rollover_spec_witness :
    inpW5.news = false
  ∧ (rollover st1 ts2).daily_wins = 0
  ∧ (rollover st1 ts2).last_trade_date = some ts2
  ∧ (SessionState.last_trade_date ⟨0, some ts2⟩ = some ts2
      ∧ (rollover st1 ts2).daily_wins ≤ SessionState.daily_wins ⟨0, some ts2⟩) := by
  have hrun : runCycle cfgW inpW5 st1 = .ok (⟨0, some ts2⟩, .scanned, []) := by decide
  have key := daily_rollover_spec cfgW inpW5 st1 rfl
  exact ⟨rfl, key.1 (Or.inr ⟨ts1, rfl, by decide⟩), key.2.2.1,
    key.2.2.2.1 ⟨0, some ts2⟩ .scanned [] hrun⟩

/-- On a nonempty window `detect_breakout` never raises. -/
theorem detect_breakout_ok (c : Candle) (cs : List Candle) :
    ∃ b, detect_breakout (c :: cs) = .ok b := by
  by_cases h1 : windowResistance c cs < (lastCandle c cs).close
  · exact ⟨some .breakout_up, by simp [detect_breakout, h1]⟩
  · by_cases h2 : (lastCandle c cs).close < windowSupport c cs
    · exact ⟨some .breakout_down, by simp [detect_breakout, h1, h2]⟩
    · exact ⟨none, by simp [detect_breakout, h1, h2]⟩

/-- The per-asset loop body always terminates in one well-defined
event when fetched windows are nonempty: no input combination makes
it escape the loop. -/
theorem processAsset_total (cfg : Config) (a : AssetInput)
    (hne : ∀ w, a.fetch = .ok w → w ≠ []) :
    ∃ ev b, processAsset cfg a = .ok (ev, b) ∧ Event.assetOf ev = a.asset := by
  by_cases hp : a.payout < cfg.min_payout ∨ cfg.max_payout < a.payout
  · exact ⟨.skipPayout a.asset, false, by simp [processAsset, hp], rfl⟩
  · cases hf : a.fetch with
    | error e => exact ⟨.fetchFail a.asset, false, by simp [processAsset, hp, hf], rfl⟩
    | ok w =>
      cases w with
      | nil => exact absurd rfl (hne [] hf)
      | cons c cs =>
        obtain ⟨bb, hb⟩ := detect_breakout_ok c cs
        obtain ⟨t, ht⟩ := detect_trend_ok cfg.trend_ma_fast cfg.trend_ma_slow c cs
        obtain ⟨v, hv⟩ := relVolume_ok cfg.volume_period c cs
        cases hgate : bb.isSome && a.canTrade with
        | false =>
          exact ⟨.noSignal a.asset, false,
            by simp [processAsset, hp, hf, hb, ht, hv, hgate], rfl⟩
        | true =>
          cases hd : inferDirection bb t with
          | none =>
            exact ⟨.noSignal a.asset, false,
              by simp [processAsset, hp, hf, hb, ht, hv, hgate, hd], rfl⟩
          | some d =>
            cases hph : a.predictHigh with
            | false =>
              exact ⟨.noSignal a.asset, false,
                by simp [processAsset, hp, hf, hb, ht, hv, hgate, hd, hph], rfl⟩
            | true =>
              cases hex : a.execResult with
              | error e =>
                exact ⟨.execFail a.asset, false,
                  by simp [processAsset, hp, hf, hb, ht, hv, hgate, hd, hph, hex], rfl⟩
              | ok win =>
                exact ⟨.traded a.asset d win, win,
                  by simp [processAsset, hp, hf, hb, ht, hv, hgate, hd, hph, hex], rfl⟩

/-- The instrument loop reaches every configured asset, whatever the
per-asset outcomes are. -/
theorem scanAssets_covers (cfg : Config) (inputs : List AssetInput)
    (hne : ∀ a ∈ inputs, ∀ w, a.fetch = .ok w → w ≠ []) :
    ∃ evs n, scanAssets cfg inputs = .ok (evs, n)
      ∧ evs.map Event.assetOf = inputs.map AssetInput.asset := by
  induction inputs with
  | nil => exact ⟨[], 0, rfl, rfl⟩
  | cons a rest ih =>
    obtain ⟨ev, b, hpa, hasset⟩ := processAsset_total cfg a (hne a (List.mem_cons_self a rest))
    obtain ⟨evs, n, hscan, hmap⟩ := ih (fun x hx => hne x (List.mem_cons_of_mem _ hx))
    refine ⟨ev :: evs, (if b then 1 else 0) + n, ?_, ?_⟩
    · simp [scanAssets, hpa, hscan]
    · simp [List.map_cons, hasset, hmap]

/-- C7: per-instrument failures are isolated.  First conjunct: for
any mix of per-asset fetch/execution failures the scan completes and
produces exactly one event per configured instrument, in order — no
per-instrument failure aborts the cycle.  Second conjunct: a raised
candle fetch ends the body in a logged `fetchFail` skip.  Third
conjunct: a raised order execution ends the body in a logged
`execFail` with no win counted. -/
theorem per_instrument_failure_isolation (cfg : Config) (inputs : List AssetInput)
    (hne : ∀ a ∈ inputs, ∀ w, a.fetch = .ok w → w ≠ []) :
    (∃ evs n, scanAssets cfg inputs = .ok (evs, n)
        ∧ evs.map Event.assetOf = inputs.map AssetInput.asset)
  ∧ (∀ a : AssetInput, ¬ (a.payout < cfg.min_payout ∨ cfg.max_payout < a.payout) →
      ∀ e, a.fetch = .error e → processAsset cfg a = .ok (.fetchFail a.asset, false))
  ∧ (∀ (a : AssetInput) (c : Candle) (cs : List Candle) (b : Breakout) (t : Trend)
        (d : Direction) (e : String),
      ¬ (a.payout < cfg.min_payout ∨ cfg.max_payout < a.payout) →
      a.fetch = .ok (c :: cs) →
      detect_breakout (c :: cs) = .ok (some b) →
      detect_trend cfg.trend_ma_fast cfg.trend_ma_slow (c :: cs) = .ok t →
      inferDirection (some b) t = some d →
      a.canTrade = true → a.predictHigh = true →
      a.execResult = .error e →
      processAsset cfg a = .ok (.execFail a.asset, false)) := by
  refine ⟨scanAssets_covers cfg inputs hne, ?_, ?_⟩
  · intro a hp e hf
    simp [processAsset, hp, hf]
  · intro a c cs b t d e hp hf hb ht hd hct hph hex
    obtain ⟨v, hv⟩ := relVolume_ok cfg.volume_period c cs
    simp [processAsset, hp, hf, hb, ht, hv, hct, hd, hph, hex]

/-- Witness for C7: a basket of two instruments, the first with a
raising fetch, the second reaching execution and raising there; the
scan still covers both, in order. -/
theorem per_instrument_failure_isolation_witness :
    (∃ evs n, scanAssets cfgW7 [aF, aE] = .ok (evs, n)
        ∧ evs.map Event.assetOf = ["A", "B"])
  ∧ processAsset cfgW7 aF = .ok (.fetchFail "A", false)
  ∧ processAsset cfgW7 aE = .ok (.execFail "B", false) := by
  have hne : ∀ a ∈ [aF, aE], ∀ w, a.fetch = .ok w → w ≠ [] := by
    intro a ha w hw
    rcases List.mem_cons.mp ha with rfl | ha2
    · exact Except.noConfusion hw
    · rcases List.mem_cons.mp ha2 with rfl | h3
      · have hweq : wBreakWindow = w := Except.ok.inj hw
        rw [← hweq]
        simp [wBreakWindow]
      · cases h3
  have ht : detect_trend cfgW7.trend_ma_fast cfgW7.trend_ma_slow wBreakWindow = .ok .up := by
    norm_num [detect_trend, rollingMeanLast, closes, wBreakWindow, wB1, wB2, cfgW7]
  have key := per_instrument_failure_isolation cfgW7 [aF, aE] hne
  refine ⟨key.1, key.2.1 aF (by decide) "boom" rfl, ?_⟩
  exact key.2.2 aE wB1 [wB2] .breakout_up .up .call "net" (by decide) rfl
    (by decide) ht (by decide) rfl rfl rfl

/-! ## Claim C1: the rising-window scenario -/

/-- A list bounded above pointwise has sum at most length times the
bound. -/
theorem sum_le_length_mul (l : List ℚ) (q : ℚ) (h : ∀ x ∈ l, x ≤ q) :
    l.sum ≤ (l.length : ℚ) * q := by
  induction l with
  | nil => simp
  | cons b t ih =>
    have hb := h b (List.mem_cons_self b t)
    have ht := ih (fun x hx => h x (List.mem_cons_of_mem _ hx))
    rw [List.sum_cons, List.length_cons]
    push_cast
    linarith

/-- A list bounded below pointwise has sum at least length times the
bound. -/
theorem length_mul_le_sum (l : List ℚ) (q : ℚ) (h : ∀ x ∈ l, q ≤ x) :
    (l.length : ℚ) * q ≤ l.sum := by
  induction l with
  | nil => simp
  | cons b t ih =>
    have hb := h b (List.mem_cons_self b t)
    have ht := ih (fun x hx => h x (List.mem_cons_of_mem _ hx))
    rw [List.sum_cons, List.length_cons]
    push_cast
    linarith

/-- Strict version of `sum_le_length_mul` for nonempty lists. -/
theorem sum_lt_length_mul (l : List ℚ) (q : ℚ) (hne : l ≠ []) (h : ∀ x ∈ l, x < q) :
    l.sum < (l.length : ℚ) * q := by
  cases l with
  | nil => exact absurd rfl hne
  | cons b t =>
    have hb := h b (List.mem_cons_self b t)
    have ht : t.sum ≤ (t.length : ℚ) * q :=
      sum_le_length_mul t q (fun x hx => le_of_lt (h x (List.mem_cons_of_mem _ hx)))
    rw [List.sum_cons, List.length_cons]
    push_cast
    linarith

/-- In a strictly increasing split `as ++ bs` with 15 and 5
elements, the front sum is under three times the back sum. -/
theorem sum_front_lt_three_mul (as bs : List ℚ) (h15 : as.length = 15) (h5 : bs.length = 5)
    (hp : (as ++ bs).Pairwise (· < ·)) : as.sum < 3 * bs.sum := by
  obtain ⟨hpa, hpb, hab⟩ := List.pairwise_append.mp hp
  cases bs with
  | nil => simp at h5
  | cons b0 rest =>
    have hb0 : ∀ a ∈ as, a < b0 := fun a ha => hab a ha b0 (List.mem_cons_self _ _)
    have hrest : ∀ x ∈ rest, b0 ≤ x := by
      intro x hx
      exact le_of_lt ((List.pairwise_cons.mp hpb).1 x hx)
    have h1 : as.sum < (as.length : ℚ) * b0 :=
      sum_lt_length_mul as b0 (by intro hnil; rw [hnil] at h15; simp at h15) hb0
    have h2 : (rest.length : ℚ) * b0 ≤ rest.sum := length_mul_le_sum rest b0 hrest
    have hlr : rest.length = 4 := by simpa using h5
    rw [h15] at h1
    rw [hlr] at h2
    rw [List.sum_cons]
    push_cast at h1 h2
    linarith

/-- Evaluation rule for `detect_trend` when both rolling means are
available. -/
theorem detect_trend_eval (maFast maSlow : ℕ) (c : Candle) (cs : List Candle) (f s : ℚ)
    (hf : rollingMeanLast maFast (closes (c :: cs)) = some f)
    (hs : rollingMeanLast maSlow (closes (c :: cs)) = some s) :
    detect_trend maFast maSlow (c :: cs) =
      .ok (if s < f then .up else if f < s then .down else .flat) := by
  simp [detect_trend, hf, hs]

/-- On any 60-candle window with strictly increasing closes, the
5-candle mean strictly exceeds the 20-candle mean, so the trend is
`up`. -/
theorem detect_trend_up_of_rising (c : Candle) (cs : List Candle)
    (hlen : (c :: cs).length = 60)
    (hmono : (closes (c :: cs)).Pairwise (· < ·)) :
    detect_trend 5 20 (c :: cs) = .ok .up := by
  have hxlen : (closes (c :: cs)).length = 60 := by simpa [closes] using hlen
  have hf : rollingMeanLast 5 (closes (c :: cs)) =
      some (((closes (c :: cs)).drop 55).sum / 5) := by
    have hc : 1 ≤ 5 ∧ 5 ≤ (closes (c :: cs)).length := ⟨by norm_num, by omega⟩
    rw [rollingMeanLast, if_pos hc, hxlen]
    norm_num
  have h20 : rollingMeanLast 20 (closes (c :: cs)) =
      some (((closes (c :: cs)).drop 40).sum / 20) := by
    have hc : 1 ≤ 20 ∧ 20 ≤ (closes (c :: cs)).length := ⟨by norm_num, by omega⟩
    rw [rollingMeanLast, if_pos hc, hxlen]
    norm_num
  have key : ((closes (c :: cs)).drop 40).sum / 20 < ((closes (c :: cs)).drop 55).sum / 5 := by
    set ys := (closes (c :: cs)).drop 40 with hys
    have hylen : ys.length = 20 := by rw [hys, List.length_drop, hxlen]
    have hpy : ys.Pairwise (· < ·) := List.Pairwise.sublist (List.drop_sublist 40 _) hmono
    have h55 : (closes (c :: cs)).drop 55 = ys.drop 15 := by
      rw [hys, List.drop_drop]
    have htake : ys.take 15 ++ ys.drop 15 = ys := List.take_append_drop 15 ys
    have hlen_as : (ys.take 15).length = 15 := by simp [List.length_take, hylen]
    have hlen_bs : (ys.drop 15).length = 5 := by simp [List.length_drop, hylen]
    have hpair : (ys.take 15 ++ ys.drop 15).Pairwise (· < ·) := by
      rw [htake]
      exact hpy
    have hmain : (ys.take 15).sum < 3 * (ys.drop 15).sum :=
      sum_front_lt_three_mul _ _ hlen_as hlen_bs hpair
    have hysum : ys.sum = (ys.take 15).sum + (ys.drop 15).sum := by
      rw [← List.sum_append, htake]
    rw [h55, div_lt_div_iff₀ (by norm_num) (by norm_num), hysum]
    linarith
  rw [detect_trend_eval 5 20 c cs _ _ hf h20, if_pos key]

set_option maxRecDepth 4000 in
/-- C1 (counterexample): the claim fails as stated.  `c1window` has
60 candles, closes strictly rising from 100 to 160 and valid OHLC
rows, yet `detect_breakout` returns `None` — not `breakout_up` — because
the resistance includes the final candle's own high. -/
theorem breakout_up_scenario_refuted : ¬ C1Claim := by
  intro h
  have hc := (h c1window (by decide) (by decide) (by decide) (by decide) (by decide)).2.1
  have hev : detect_breakout c1window = .ok none := by decide
  rw [hev] at hc
  exact Option.noConfusion (Except.ok.inj hc)

/-- C1 (amended): on every 60-candle window with strictly rising
closes from 100 to 160 and `maFast = 5`, `maSlow = 20`, the trend is
`up`; but since every candle satisfies `low ≤ close ≤ high`, the
breakout is `None` (support/resistance include the last candle
itself) and no direction is inferred. -/
theorem rising_window_signal (w : List Candle) (hlen : w.length = 60)
    (hmono : (closes w).Pairwise (· < ·))
    (hhead : (closes w).head? = some 100)
    (hlast : (closes w).getLast? = some 160)
    (hval : ∀ x ∈ w, x.low ≤ x.close ∧ x.close ≤ x.high) :
    detect_trend 5 20 w = .ok .up
  ∧ detect_breakout w = .ok none
  ∧ (∀ t, inferDirection none t = none) := by
  cases w with
  | nil => simp at hlen
  | cons c cs =>
    exact ⟨detect_trend_up_of_rising c cs hlen hmono,
      detect_breakout_of_valid c cs hval,
      fun t => by simp [inferDirection]⟩

set_option maxRecDepth 4000 in
/-- Witness for the amended C1 at the concrete window `c1window`. -/
theorem rising_window_signal_witness :
    c1window.length = 60
  ∧ detect_trend 5 20 c1window = .ok .up
  ∧ detect_breakout c1window = .ok none :=
  ⟨by decide,
    (rising_window_signal c1window (by decide) (by decide) (by decide) (by decide)
      (by decide)).1,
    (rising_window_signal c1window (by decide) (by decide) (by decide) (by decide)
      (by decide)).2.1⟩

end SuperRobot
